import Mathlib

/-!
Verification of `factory/libgemini/ramp_calibration.py`.

The script calibrates two ramp oscillators ("Castor" and "Pollux"): for each
timer period of a reference table an operator manually adjusts a DAC code,
the resulting table is saved to a local JSON file and optionally uploaded to
the device LUT.

The embedding below models the script's effectful calls (`gem.set_dac`,
`gem.set_period`, `scope.set_time_division`, filesystem writes, LUT writes)
as an explicit event trace.  Python exceptions (ZeroDivisionError from
`n / (len(t) - 1)` and from the slope division, KeyError from a missing dict
key, StopIteration from `next` on an empty iterator) are modelled with an
explicit error component; once an error is raised the remaining program is
not executed, so the trace collected up to that point is the trace of the
aborted run.  Python dicts preserve insertion order, so a calibration table
is embedded as an association list `List (Nat x Int)` with the dict's
key-uniqueness available as a `Nodup` hypothesis where a proof needs it;
updating an existing key is positional update.  Python ints are `Int`
(DAC codes), periods are `Nat`, and the floating-point frequency arithmetic
is modelled over `Rat` (the script only compares, subtracts, divides and
rounds these values; no claim depends on float rounding noise).
-/

namespace RampCalibration

/-- The six oscilloscope time divisions selectable by
`_set_scope_time_division`. -/
inductive TimeDiv : Type
  | t100us
  | t200us
  | t500us
  | t1ms
  | t2ms
  | t5ms
deriving DecidableEq

/-- Duration of a time division in microseconds, to express that smaller
frequency selects a coarser (longer) division. -/
def TimeDiv.micros : TimeDiv → ℕ
  | .t100us => 100
  | .t200us => 200
  | .t500us => 500
  | .t1ms => 1000
  | .t2ms => 2000
  | .t5ms => 5000

/-- Observable side effects of the script, in program order. -/
inductive Event : Type
  | setPeriod (oscillator : ℕ) (period : ℕ)
  | setDac (channel : ℕ) (code : ℤ)
  | setTimeDivision (d : TimeDiv)
  | mkdirCalibrations
  | writeFile (path : String) (castor pollux : List (ℕ × ℤ))
  | writeLutEntry (index : ℕ) (period : ℕ) (castorCode polluxCode : ℤ)
  | writeLut
  | close
deriving DecidableEq

/-- Python exceptions raised by the script. -/
inductive PyErr : Type
  | zeroDivision
  | keyError (key : ℕ)
  | stopIteration
deriving DecidableEq

/-- Python's built-in `round`: round half to even (banker's rounding),
returning an int. -/
def pyRound (q : ℚ) : ℤ :=
  let f := ⌊q⌋
  let r := q - f
  if r < 1 / 2 then f
  else if 1 / 2 < r then f + 1
  else if f % 2 = 0 then f else f + 1

/-- Embedding of `_set_scope_time_division(scope, frequency)`: the chain of
strictly-greater threshold tests selecting the scope time division. -/
def set_scope_time_division (frequency : ℚ) : TimeDiv :=
  if frequency > 1200 then .t100us
  else if frequency > 700 then .t200us
  else if frequency > 180 then .t500us
  else if frequency > 90 then .t1ms
  else if frequency > 46 then .t2ms
  else .t5ms

/-- Embedding of `_manual_seek(gem, dac_channel, charge_code)`.  The operator
interaction (`interactive.adjust_value`) is a collaborator yielding a finite
sequence of adjusted values, modelled by the list `responses` (the values the
generator yields, already clamped to 0..4095 by the collaborator itself).
The function first writes the starting code to the DAC, then for each yielded
value rebinds `charge_code` and writes it to the DAC; it returns the final
`charge_code` together with the DAC writes performed. -/
def manual_seek (dac_channel : ℕ) (charge_code : ℤ) (responses : List ℤ) :
    ℤ × List Event :=
  responses.foldl
    (fun acc value => (value, acc.2 ++ [Event.setDac dac_channel value]))
    (charge_code, [Event.setDac dac_channel charge_code])

/-- State threaded through the sweep loop of `_calibrate_oscillator`:
the (module-level) calibration table, the `last_dac_code` variable, the
event trace so far, and the pending Python exception, if any. -/
structure SweepState : Type where
  table : List (ℕ × ℤ)
  last : ℤ
  events : List Event
  err : Option PyErr
deriving DecidableEq

/-- Tail of one sweep-loop iteration, after the starting guess `g` has been
determined: `gem.set_period(oscillator, period)`, then `_manual_seek`, then
the accepted code is recorded into the table (positional update of the dict
entry whose key is `period`) and becomes `last_dac_code`. -/
def finishStep (oscillator dac_channel : ℕ) (ops : List (List ℤ))
    (s : SweepState) (n : ℕ) (period : ℕ) (evs : List Event) (g : ℤ) :
    SweepState :=
  let r := manual_seek dac_channel g (ops.getD n [])
  { table := s.table.set n (period, r.1)
    last := r.1
    events := evs ++ [Event.setPeriod oscillator period] ++ r.2
    err := none }

/-- One iteration of the `for n, (period, dac_code) in enumerate(...)` loop
of `_calibrate_oscillator`:
`progress = n / (len(t) - 1)` (ZeroDivisionError when the table has one
entry); the monotonicity clamp `if dac_code < last_dac_code`; the scope
time-division update for this point's frequency; for `n > 2` the
linear-extrapolation guess through the table entries at index `n - 1` and
index `0` (`min(4095, round(y_intercept + slope * frequency))`, with
ZeroDivisionError when the two anchor frequencies coincide), which replaces
the clamped value; then `finishStep`.  Scope measurement readback
(`_measure_max`) is advisory logging only and contributes no event.
The oscilloscope measurement-display setup before the loop likewise only
configures the scope display and is not modelled. -/
def calibrateStep (freq : ℕ → ℚ) (oscillator dac_channel : ℕ)
    (ops : List (List ℤ)) (s : SweepState) (n : ℕ) : SweepState :=
  if s.err.isSome then s
  else
    match s.table.get? n with
    | none => s
    | some (period, dac_code) =>
      if s.table.length - 1 = 0 then { s with err := some PyErr.zeroDivision }
      else
        let dc := if dac_code < s.last then s.last else dac_code
        let frequency := freq period
        let evs :=
          s.events ++ [Event.setTimeDivision (set_scope_time_division frequency)]
        if 2 < n then
          match s.table.get? (n - 1), s.table.get? 0 with
          | some (p₁, y₁), some (p₂, y₂) =>
            let x₁ := freq p₁
            let x₂ := freq p₂
            if x₂ - x₁ = 0 then
              { s with events := evs, err := some PyErr.zeroDivision }
            else
              let slope := ((y₂ : ℚ) - (y₁ : ℚ)) / (x₂ - x₁)
              let y_intercept := (y₂ : ℚ) - slope * x₂
              let g := min 4095 (pyRound (y_intercept + slope * frequency))
              finishStep oscillator dac_channel ops s n period evs g
          | _, _ => s   -- unreachable: n < length of the table
        else
          finishStep oscillator dac_channel ops s n period evs dc

/-- Embedding of `_calibrate_oscillator(gem, scope, oscillator)`: selects the
DAC channel (oscillator 0 -> channel 0, oscillator 1 -> channel 2) and runs
the sweep loop over every index of the table, starting from
`last_dac_code = 0`.  The Python function both mutates the module-level
table in place and returns a copy of it; `(calibrate_oscillator ...).table`
is that shared table after the sweep (equal to the returned copy). -/
def calibrate_oscillator (freq : ℕ → ℚ) (oscillator : ℕ)
    (ops : List (List ℤ)) (table : List (ℕ × ℤ)) : SweepState :=
  let dac_channel : ℕ := if oscillator = 0 then 0 else 2
  (List.range table.length).foldl
    (calibrateStep freq oscillator dac_channel ops)
    ⟨table, 0, [], none⟩

/-- Python dict lookup `t[key]` on the association-list embedding: the value
of the first entry with the given key, `none` modelling KeyError. -/
def lookup (t : List (ℕ × ℤ)) (key : ℕ) : Option ℤ :=
  (t.find? (fun e => e.1 = key)).map Prod.snd

/-- One iteration of the LUT-upload loop in `run`:
`progress = n / (len(castor_calibration.values()) - 1)` (ZeroDivisionError
when `total = 1`), then `pollux_calibration[timer_period]` (KeyError when the
period is absent), then `gem.write_lut_entry(n, timer_period, castor_code,
pollux_code)`. -/
def uploadStep (pollux : List (ℕ × ℤ)) (total : ℕ)
    (acc : List Event × Option PyErr) (x : ℕ × ℕ × ℤ) :
    List Event × Option PyErr :=
  match acc.2 with
  | some _ => acc
  | none =>
    if total - 1 = 0 then (acc.1, some PyErr.zeroDivision)
    else
      match lookup pollux x.2.1 with
      | none => (acc.1, some (PyErr.keyError x.2.1))
      | some pollux_code =>
        (acc.1 ++ [Event.writeLutEntry x.1 x.2.1 x.2.2 pollux_code], none)

/-- Embedding of the `if save:` block of `run`: iterate the Castor table's
keys with their indices, write one LUT entry per index (the Pollux code
obtained by dict lookup on the period), then commit with
`gem.write_lut()`. -/
def upload_lut (castor pollux : List (ℕ × ℤ)) : List Event × Option PyErr :=
  let r := (castor.enum.map (fun x => (x.1, x.2.1, x.2.2))).foldl
    (uploadStep pollux castor.length) ([], none)
  match r.2 with
  | some _ => r
  | none => (r.1 ++ [Event.writeLut], none)

/-- Result of `run(save)`: the two table snapshots
(`castor_calibration`, `pollux_calibration`), the event trace, and the
pending exception if the run aborted.  On an aborted run the table fields
hold the state reached when the exception was raised. -/
structure RunResult : Type where
  castor : List (ℕ × ℤ)
  pollux : List (ℕ × ℤ)
  events : List Event
  err : Option PyErr
deriving DecidableEq

/-- Embedding of `run(save)`.  The module-level table
`period_to_dac_code = reference_calibration.castor.copy()` is the parameter
`seed`; it is shared by the two sweeps exactly as in the source: the Castor
sweep mutates it in place, and the Pollux sweep then iterates the same
(already mutated) object.  `castorOps`/`polluxOps` are the per-point
operator adjustment sequences of the two sweeps, `serial` is
`gem.serial_number`.  Steps: seed both oscillators from the first table
entry (`next(iter(...))`, StopIteration on an empty table), sweep Castor
then Pollux, unconditionally create `calibrations/` and write
`calibrations/<serial>.ramp.json` holding both tables, and only when `save`
is set run the LUT upload followed by `gem.write_lut()`; finally
`gem.close()`.  Scope display setup and log output produce no events. -/
def run (freq : ℕ → ℚ) (seed : List (ℕ × ℤ))
    (castorOps polluxOps : List (List ℤ)) (serial : String) (save : Bool) :
    RunResult :=
  match seed.head? with
  | none => ⟨seed, [], [], some PyErr.stopIteration⟩
  | some (p₀, c₀) =>
    let setupEvs := [Event.setPeriod 0 p₀, Event.setDac 0 c₀,
                     Event.setPeriod 1 p₀, Event.setDac 2 c₀]
    let castorS := calibrate_oscillator freq 0 castorOps seed
    match castorS.err with
    | some e => ⟨castorS.table, [], setupEvs ++ castorS.events, some e⟩
    | none =>
      let castor_calibration := castorS.table
      let polluxS := calibrate_oscillator freq 1 polluxOps castorS.table
      match polluxS.err with
      | some e =>
        ⟨castor_calibration, polluxS.table,
         setupEvs ++ castorS.events ++ polluxS.events, some e⟩
      | none =>
        let pollux_calibration := polluxS.table
        let path := "calibrations/" ++ serial ++ ".ramp.json"
        let evs₀ := setupEvs ++ castorS.events ++ polluxS.events ++
          [Event.mkdirCalibrations,
           Event.writeFile path castor_calibration pollux_calibration]
        if save then
          let lut := upload_lut castor_calibration pollux_calibration
          match lut.2 with
          | some e =>
            ⟨castor_calibration, pollux_calibration, evs₀ ++ lut.1, some e⟩
          | none =>
            ⟨castor_calibration, pollux_calibration,
             evs₀ ++ lut.1 ++ [Event.close], none⟩
        else
          ⟨castor_calibration, pollux_calibration, evs₀ ++ [Event.close], none⟩

/-- The spec's monotonicity invariant on a calibration table: DAC codes
non-decreasing in iteration order (`T[i].code <= T[j].code` for `i < j`). -/
def codesMonotone (t : List (ℕ × ℤ)) : Prop :=
  List.Pairwise (fun a b => a ≤ b) (t.map Prod.snd)

instance (t : List (ℕ × ℤ)) : Decidable (codesMonotone t) :=
  List.instDecidablePairwise _

/-- The code the operator accepts at point `k`: the final value yielded by
the adjustment collaborator at that point (the default value `0` is never
used when the collaborator yields at least one value at point `k`). -/
def acc (ops : List (List ℤ)) (k : ℕ) : ℤ :=
  ((ops.getD k []).getLast?).getD 0

/-- Event classifier: LUT entry write. -/
def Event.isLutEntry : Event → Bool
  | .writeLutEntry _ _ _ _ => true
  | _ => false

/-- Event classifier: LUT commit. -/
def Event.isLutCommit : Event → Bool
  | .writeLut => true
  | _ => false

/-- Event classifier: any LUT write (entry or commit). -/
def Event.isLut (e : Event) : Bool := e.isLutEntry || e.isLutCommit

/-- Event classifier: the local persistence effects (directory creation and
JSON file write). -/
def Event.isSave : Event → Bool
  | .mkdirCalibrations => true
  | .writeFile _ _ _ => true
  | _ => false

/-- Event classifier: events a sweep (or the initial device seeding) can
emit — DAC writes, period writes and scope time-division changes. -/
def Event.isSweep : Event → Bool
  | .setPeriod _ _ => true
  | .setDac _ _ => true
  | .setTimeDivision _ => true
  | _ => false

/-- The spec-side formula of claim C3, written from the spec's words
(§4.4 step 4): the line through `(x1, y1)` — the already-calibrated point at
index `n - 1` — and `(x2, y2)` — the point at index `0` — with periods
converted to frequencies; `slope = (y2 - y1) / (x2 - x1)`,
`intercept = y2 - slope * x2`,
`guess = min(4095, round(intercept + slope * f_n))`. -/
def specGuess (freq : ℕ → ℚ) (x₁p : ℕ) (y₁ : ℤ) (x₂p : ℕ) (y₂ : ℤ)
    (fₙp : ℕ) : ℤ :=
  let x₁ := freq x₁p
  let x₂ := freq x₂p
  let slope := ((y₂ : ℚ) - (y₁ : ℚ)) / (x₂ - x₁)
  let intercept := (y₂ : ℚ) - slope * x₂
  min 4095 (pyRound (intercept + slope * freq fₙp))

theorem getLast?_getD_cons (v c : ℤ) (t : List ℤ) :
    ((v :: t).getLast?).getD c = (t.getLast?).getD v := by
  cases t with
  | nil => simp
  | cons b l =>
    rw [List.getLast?_cons_cons]
    cases h : (b :: l).getLast? with
    | none => simp [List.getLast?_eq_none_iff] at h
    | some x => simp

theorem manual_seek_foldl (dch : ℕ) (rs : List ℤ) (c : ℤ) (evs : List Event) :
    rs.foldl (fun acc value => (value, acc.2 ++ [Event.setDac dch value]))
        (c, evs)
      = ((rs.getLast?).getD c, evs ++ rs.map (Event.setDac dch)) := by
  induction rs generalizing c evs with
  | nil => simp
  | cons v t ih => rw [List.foldl_cons, ih, getLast?_getD_cons]; simp

theorem manual_seek_eq (dch : ℕ) (c : ℤ) (rs : List ℤ) :
    manual_seek dch c rs
      = ((rs.getLast?).getD c, (c :: rs).map (Event.setDac dch)) := by
  rw [manual_seek, manual_seek_foldl]; simp

theorem calibrateStep_of_err (freq : ℕ → ℚ) (osc dch : ℕ)
    (ops : List (List ℤ)) (s : SweepState) (n : ℕ) (h : s.err.isSome) :
    calibrateStep freq osc dch ops s n = s := by
  simp [calibrateStep, h]

theorem err_none_of_calibrateStep (freq : ℕ → ℚ) (osc dch : ℕ)
    (ops : List (List ℤ)) (s : SweepState) (n : ℕ)
    (h : (calibrateStep freq osc dch ops s n).err = none) : s.err = none := by
  by_cases hs : s.err.isSome
  · rw [calibrateStep_of_err freq osc dch ops s n hs] at h; exact h
  · exact Option.not_isSome_iff_eq_none.mp hs

theorem calibrateStep_len1 (freq : ℕ → ℚ) (osc dch : ℕ)
    (ops : List (List ℤ)) (s : SweepState) (n period : ℕ) (dac_code : ℤ)
    (hs : s.err = none) (hg : s.table[n]? = some (period, dac_code))
    (hL : s.table.length - 1 = 0) :
    calibrateStep freq osc dch ops s n
      = { s with err := some PyErr.zeroDivision } := by
  simp [calibrateStep, hs, hg, hL]

theorem calibrateStep_low (freq : ℕ → ℚ) (osc dch : ℕ) (ops : List (List ℤ))
    (s : SweepState) (n period : ℕ) (dac_code : ℤ)
    (hs : s.err = none) (hg : s.table[n]? = some (period, dac_code))
    (hL : s.table.length - 1 ≠ 0) (hn : ¬ 2 < n) :
    calibrateStep freq osc dch ops s n =
      finishStep osc dch ops s n period
        (s.events ++
          [Event.setTimeDivision (set_scope_time_division (freq period))])
        (if dac_code < s.last then s.last else dac_code) := by
  simp [calibrateStep, hs, hg, hL, hn]

theorem calibrateStep_high (freq : ℕ → ℚ) (osc dch : ℕ) (ops : List (List ℤ))
    (s : SweepState) (n period p₁ p₂ : ℕ) (dac_code y₁ y₂ : ℤ)
    (hs : s.err = none) (hg : s.table[n]? = some (period, dac_code))
    (hL : s.table.length - 1 ≠ 0) (hn : 2 < n)
    (hg1 : s.table[n - 1]? = some (p₁, y₁))
    (hg0 : s.table[0]? = some (p₂, y₂))
    (hx : freq p₂ - freq p₁ ≠ 0) :
    calibrateStep freq osc dch ops s n =
      finishStep osc dch ops s n period
        (s.events ++
          [Event.setTimeDivision (set_scope_time_division (freq period))])
        (specGuess freq p₁ y₁ p₂ y₂ period) := by
  simp [calibrateStep, hs, hg, hL, hn, hg1, hg0, hx, specGuess]

theorem calibrateStep_high_err (freq : ℕ → ℚ) (osc dch : ℕ)
    (ops : List (List ℤ)) (s : SweepState) (n period p₁ p₂ : ℕ)
    (dac_code y₁ y₂ : ℤ)
    (hs : s.err = none) (hg : s.table[n]? = some (period, dac_code))
    (hL : s.table.length - 1 ≠ 0) (hn : 2 < n)
    (hg1 : s.table[n - 1]? = some (p₁, y₁))
    (hg0 : s.table[0]? = some (p₂, y₂))
    (hx : freq p₂ - freq p₁ = 0) :
    calibrateStep freq osc dch ops s n =
      { s with
        events := s.events ++
          [Event.setTimeDivision (set_scope_time_division (freq period))]
        err := some PyErr.zeroDivision } := by
  simp [calibrateStep, hs, hg, hL, hn, hg1, hg0, hx]

/-- Exhaustive shape analysis of one sweep iteration: it leaves the state
unchanged, or raises an error (possibly after one scope event), or runs
`finishStep` on the entry at index `n` with some starting guess. -/
theorem calibrateStep_cases (freq : ℕ → ℚ) (osc dch : ℕ)
    (ops : List (List ℤ)) (s : SweepState) (n : ℕ) :
    calibrateStep freq osc dch ops s n = s ∨
    calibrateStep freq osc dch ops s n
      = { s with err := some PyErr.zeroDivision } ∨
    (∃ d, calibrateStep freq osc dch ops s n
      = { s with events := s.events ++ [Event.setTimeDivision d],
                 err := some PyErr.zeroDivision }) ∨
    (∃ period dac_code g,
      s.table[n]? = some (period, dac_code) ∧
      calibrateStep freq osc dch ops s n
        = finishStep osc dch ops s n period
            (s.events ++
              [Event.setTimeDivision (set_scope_time_division (freq period))])
            g) := by
  by_cases he : s.err.isSome
  · exact Or.inl (calibrateStep_of_err freq osc dch ops s n he)
  have hs : s.err = none := Option.not_isSome_iff_eq_none.mp he
  cases hg : s.table[n]? with
  | none => left; simp [calibrateStep, hs, hg]
  | some e =>
    obtain ⟨period, dac_code⟩ := e
    by_cases hL : s.table.length - 1 = 0
    · right; left
      exact calibrateStep_len1 freq osc dch ops s n period dac_code hs hg hL
    by_cases hn : 2 < n
    · cases hg1 : s.table[n - 1]? with
      | none => left; simp [calibrateStep, hs, hg, hL, hn, hg1]
      | some e1 =>
        obtain ⟨p₁, y₁⟩ := e1
        cases hg0 : s.table[0]? with
        | none => left; simp [calibrateStep, hs, hg, hL, hn, hg1, hg0]
        | some e0 =>
          obtain ⟨p₂, y₂⟩ := e0
          by_cases hx : freq p₂ - freq p₁ = 0
          · right; right; left
            exact ⟨_, calibrateStep_high_err freq osc dch ops s n period p₁
              p₂ dac_code y₁ y₂ hs hg hL hn hg1 hg0 hx⟩
          · right; right; right
            exact ⟨period, dac_code, _, rfl, calibrateStep_high freq osc dch
              ops s n period p₁ p₂ dac_code y₁ y₂ hs hg hL hn hg1 hg0 hx⟩
    · right; right; right
      exact ⟨period, dac_code, _, rfl,
        calibrateStep_low freq osc dch ops s n period dac_code hs hg hL hn⟩

theorem set_map_fst (l : List (ℕ × ℤ)) (n : ℕ) (p : ℕ) (c x : ℤ)
    (h : l[n]? = some (p, c)) :
    (l.set n (p, x)).map Prod.fst = l.map Prod.fst := by
  induction l generalizing n with
  | nil => simp at h
  | cons b t ih =>
    cases n with
    | zero =>
      simp at h
      subst h
      simp
    | succ m =>
      simp at h
      simp [List.set, ih m h]

theorem calibrateStep_map_fst (freq : ℕ → ℚ) (osc dch : ℕ)
    (ops : List (List ℤ)) (s : SweepState) (n : ℕ) :
    ((calibrateStep freq osc dch ops s n).table).map Prod.fst
      = s.table.map Prod.fst := by
  rcases calibrateStep_cases freq osc dch ops s n with h | h | ⟨ev, h⟩ |
    ⟨p, dc, g, hg, h⟩ <;> rw [h]
  exact set_map_fst s.table n p dc _ hg

theorem calibrateStep_table_length (freq : ℕ → ℚ) (osc dch : ℕ)
    (ops : List (List ℤ)) (s : SweepState) (n : ℕ) :
    ((calibrateStep freq osc dch ops s n).table).length = s.table.length := by
  have h := calibrateStep_map_fst freq osc dch ops s n
  have := congrArg List.length h
  simpa using this

theorem calibrateStep_events_shape (freq : ℕ → ℚ) (osc dch : ℕ)
    (ops : List (List ℤ)) (s : SweepState) (n : ℕ) :
    ∃ new, (calibrateStep freq osc dch ops s n).events = s.events ++ new ∧
      ∀ e ∈ new, e.isSweep = true := by
  rcases calibrateStep_cases freq osc dch ops s n with h | h | ⟨d, h⟩ |
    ⟨p, dc, g, hg, h⟩ <;> rw [h]
  · exact ⟨[], by simp⟩
  · exact ⟨[], by simp⟩
  · refine ⟨[Event.setTimeDivision d], by simp, ?_⟩
    intro e he
    simp at he
    subst he
    rfl
  · refine ⟨[Event.setTimeDivision (set_scope_time_division (freq p)),
      Event.setPeriod osc p] ++
      ((ops.getD n []).map (fun v => Event.setDac dch v) |>.cons
        (Event.setDac dch g)), ?_, ?_⟩
    · simp [finishStep, manual_seek_eq]
    · intro e he
      simp at he
      rcases he with he | he | he | ⟨v, hv, he⟩ <;> subst he <;> rfl

section SweepLemmas

variable (freq : ℕ → ℚ) (osc dch : ℕ) (ops : List (List ℤ))
variable (seed : List (ℕ × ℤ))

theorem foldl_calibrateStep_of_err (l : List ℕ) (s : SweepState)
    (h : s.err.isSome) :
    l.foldl (calibrateStep freq osc dch ops) s = s := by
  induction l with
  | nil => rfl
  | cons a t ih =>
    rw [List.foldl_cons, calibrateStep_of_err freq osc dch ops s a h]
    exact ih

/-- The sweep state after the first `n` iterations of the loop of
`_calibrate_oscillator` (starting from the table `seed` and
`last_dac_code = 0`). -/
def sweepStates (n : ℕ) : SweepState :=
  (List.range n).foldl (calibrateStep freq osc dch ops) ⟨seed, 0, [], none⟩

theorem sweepStates_succ (n : ℕ) :
    sweepStates freq osc dch ops seed (n + 1)
      = calibrateStep freq osc dch ops (sweepStates freq osc dch ops seed n)
          n := by
  rw [sweepStates, List.range_succ, List.foldl_append]
  rfl

theorem calibrate_oscillator_eq_sweepStates :
    calibrate_oscillator freq osc ops seed
      = sweepStates freq osc (if osc = 0 then 0 else 2) ops seed
          seed.length := rfl

theorem sweepStates_err_anti (n : ℕ)
    (h : (sweepStates freq osc dch ops seed (n + 1)).err = none) :
    (sweepStates freq osc dch ops seed n).err = none := by
  rw [sweepStates_succ] at h
  exact err_none_of_calibrateStep _ _ _ _ _ _ h

theorem sweepStates_err_none_of_le (m n : ℕ) (hmn : m ≤ n)
    (h : (sweepStates freq osc dch ops seed n).err = none) :
    (sweepStates freq osc dch ops seed m).err = none := by
  induction n with
  | zero => cases Nat.le_zero.mp hmn; exact h
  | succ k ih =>
    rcases Nat.lt_or_ge m (k + 1) with hlt | hge
    · exact ih (Nat.lt_succ_iff.mp hlt)
        (sweepStates_err_anti freq osc dch ops seed k h)
    · cases Nat.le_antisymm hmn hge; exact h

theorem sweepStates_table_length (n : ℕ) :
    ((sweepStates freq osc dch ops seed n).table).length = seed.length := by
  induction n with
  | zero => rfl
  | succ m ih => rw [sweepStates_succ, calibrateStep_table_length]; exact ih

theorem sweepStates_map_fst (n : ℕ) :
    ((sweepStates freq osc dch ops seed n).table).map Prod.fst
      = seed.map Prod.fst := by
  induction n with
  | zero => rfl
  | succ m ih => rw [sweepStates_succ, calibrateStep_map_fst]; exact ih

theorem sweepStates_events_sweep (n : ℕ) :
    ∀ e ∈ (sweepStates freq osc dch ops seed n).events, e.isSweep = true := by
  induction n with
  | zero => simp [sweepStates]
  | succ m ih =>
    rw [sweepStates_succ]
    obtain ⟨new, heq, hnew⟩ := calibrateStep_events_shape freq osc dch ops
      (sweepStates freq osc dch ops seed m) m
    rw [heq]
    intro e he
    rcases List.mem_append.mp he with h | h
    · exact ih e h
    · exact hnew e h

theorem finishStep_table (s : SweepState) (n period : ℕ) (evs : List Event)
    (g : ℤ) :
    (finishStep osc dch ops s n period evs g).table
      = s.table.set n (period, ((ops.getD n []).getLast?).getD g) := by
  simp [finishStep, manual_seek_eq]

theorem finishStep_err (s : SweepState) (n period : ℕ) (evs : List Event)
    (g : ℤ) :
    (finishStep osc dch ops s n period evs g).err = none := rfl

theorem finishStep_last (s : SweepState) (n period : ℕ) (evs : List Event)
    (g : ℤ) :
    (finishStep osc dch ops s n period evs g).last
      = ((ops.getD n []).getLast?).getD g := by
  simp [finishStep, manual_seek_eq]

theorem acc_of_ne_nil (m : ℕ) (g : ℤ) (h : ops.getD m [] ≠ []) :
    ((ops.getD m []).getLast?).getD g = acc ops m := by
  unfold acc
  cases hl : (ops.getD m []).getLast? with
  | none => exact absurd (List.getLast?_eq_none_iff.mp hl) h
  | some v => rfl

/-- Central characterization of the sweep when the operator yields at least
one value at every point: the table after `n` iterations holds, at each
index `k < n`, the original period paired with the operator's final value at
point `k`, and the untouched seed entry at indices `k ≥ n`. -/
theorem sweepStates_getElem? (hne : ∀ k, k < seed.length → ops.getD k [] ≠ [])
    (n : ℕ) (hn : n ≤ seed.length)
    (herr : (sweepStates freq osc dch ops seed n).err = none) :
    ∀ k, ((sweepStates freq osc dch ops seed n).table)[k]? =
      (seed[k]?).map (fun e => if k < n then (e.1, acc ops k) else e) := by
  induction n with
  | zero =>
    intro k
    simp [sweepStates]
  | succ m ih =>
    have hmlt : m < seed.length := Nat.lt_of_succ_le hn
    have herrm : (sweepStates freq osc dch ops seed m).err = none :=
      sweepStates_err_anti freq osc dch ops seed m herr
    have IH := ih (Nat.le_of_lt hmlt) herrm
    obtain ⟨em, hem⟩ : ∃ e, seed[m]? = some e :=
      ⟨_, List.getElem?_eq_getElem hmlt⟩
    obtain ⟨pm, cm⟩ := em
    have hgm :
        (sweepStates freq osc dch ops seed m).table[m]? = some (pm, cm) := by
      rw [IH m, hem]; simp
    have hstep_err :
        (calibrateStep freq osc dch ops (sweepStates freq osc dch ops seed m)
          m).err = none := by
      rw [← sweepStates_succ]; exact herr
    by_cases hL :
        ((sweepStates freq osc dch ops seed m).table).length - 1 = 0
    · exfalso
      rw [calibrateStep_len1 freq osc dch ops _ m pm cm herrm hgm hL]
        at hstep_err
      simp at hstep_err
    have hmain : ∃ g, calibrateStep freq osc dch ops
        (sweepStates freq osc dch ops seed m) m
        = finishStep osc dch ops (sweepStates freq osc dch ops seed m) m pm
            ((sweepStates freq osc dch ops seed m).events ++
              [Event.setTimeDivision (set_scope_time_division (freq pm))])
            g := by
      by_cases hn2 : 2 < m
      · have h1lt : m - 1 < seed.length :=
          lt_of_le_of_lt (Nat.sub_le m 1) hmlt
        have h0lt : 0 < seed.length :=
          Nat.lt_of_le_of_lt (Nat.zero_le m) hmlt
        obtain ⟨e1, he1⟩ : ∃ e, seed[m - 1]? = some e :=
          ⟨_, List.getElem?_eq_getElem h1lt⟩
        obtain ⟨e0, he0⟩ : ∃ e, seed[0]? = some e :=
          ⟨_, List.getElem?_eq_getElem h0lt⟩
        obtain ⟨p₁, y₁, hg1⟩ : ∃ a b,
            (sweepStates freq osc dch ops seed m).table[m - 1]?
              = some (a, b) := by
          rw [IH (m - 1), he1]; exact ⟨_, _, rfl⟩
        obtain ⟨p₂, y₂, hg0⟩ : ∃ a b,
            (sweepStates freq osc dch ops seed m).table[0]? = some (a, b) := by
          rw [IH 0, he0]; exact ⟨_, _, rfl⟩
        by_cases hx : freq p₂ - freq p₁ = 0
        · exfalso
          rw [calibrateStep_high_err freq osc dch ops _ m pm p₁ p₂ cm y₁ y₂
            herrm hgm hL hn2 hg1 hg0 hx] at hstep_err
          simp at hstep_err
        · exact ⟨_, calibrateStep_high freq osc dch ops _ m pm p₁ p₂ cm y₁ y₂
            herrm hgm hL hn2 hg1 hg0 hx⟩
      · exact ⟨_, calibrateStep_low freq osc dch ops _ m pm cm herrm hgm hL
          hn2⟩
    obtain ⟨g, hgstep⟩ := hmain
    intro k
    rw [sweepStates_succ, hgstep, finishStep_table,
      acc_of_ne_nil ops m g (hne m hmlt)]
    rcases eq_or_ne m k with rfl | hk
    · rw [List.getElem?_set_self', hgm, hem]
      simp
    · rw [List.getElem?_set_ne hk, IH k]
      cases hseedk : seed[k]? with
      | none => simp
      | some e =>
        have : (k < m) = (k < m + 1) := by
          apply propext
          omega
        simp [this]

end SweepLemmas

/-- C10: `_manual_seek` returns the last value yielded by the
operator-interaction collaborator, or the starting guess if none was
yielded; its DAC writes are the starting guess followed by each yielded
value, all to the given DAC channel.  In particular, when the collaborator
yields nothing the function returns the starting guess and the only DAC
write is that starting guess. -/
theorem manual_seek_spec (dac_channel : ℕ) (charge_code : ℤ)
    (responses : List ℤ) :
    (manual_seek dac_channel charge_code responses).1
      = (responses.getLast?).getD charge_code ∧
    (manual_seek dac_channel charge_code responses).2
      = (charge_code :: responses).map (Event.setDac dac_channel) ∧
    (responses = [] →
      (manual_seek dac_channel charge_code responses).1 = charge_code ∧
      (manual_seek dac_channel charge_code responses).2
        = [Event.setDac dac_channel charge_code]) := by
  refine ⟨by rw [manual_seek_eq], by rw [manual_seek_eq], ?_⟩
  rintro rfl
  rw [manual_seek_eq]
  exact ⟨rfl, rfl⟩

/-- Witness for C10 at a concrete input: the collaborator yields nothing,
the seek returns the starting guess `7` and writes only `7` to channel 2;
with yielded values `[5, 9]` it returns `9`. -/
theorem manual_seek_spec_witness :
    (([] : List ℤ) = [] →
      (manual_seek 2 7 []).1 = 7 ∧
      (manual_seek 2 7 []).2 = [Event.setDac 2 7]) ∧
    (manual_seek 2 7 [5, 9]).1 = ([5, 9].getLast?).getD 7 :=
  ⟨(manual_seek_spec 2 7 []).2.2, (manual_seek_spec 2 7 [5, 9]).1⟩

/-- C6: `_set_scope_time_division` always selects exactly one of the six
divisions; as a function of frequency it is a monotone step function
(a larger frequency never selects a longer division), with strict-greater
thresholds: 1200 Hz still selects 200us while 1201 Hz selects 100us. -/
theorem scope_time_division_spec :
    (∀ f : ℚ, set_scope_time_division f ∈
      [TimeDiv.t100us, TimeDiv.t200us, TimeDiv.t500us,
       TimeDiv.t1ms, TimeDiv.t2ms, TimeDiv.t5ms]) ∧
    (∀ f₁ f₂ : ℚ, f₁ ≤ f₂ →
      (set_scope_time_division f₂).micros
        ≤ (set_scope_time_division f₁).micros) ∧
    set_scope_time_division 1200 = TimeDiv.t200us ∧
    set_scope_time_division 1201 = TimeDiv.t100us := by
  refine ⟨?_, ?_, by decide, by decide⟩
  · intro f
    simp only [set_scope_time_division]
    split_ifs <;> simp
  · intro f₁ f₂ h
    simp only [set_scope_time_division]
    split_ifs <;> simp [TimeDiv.micros] <;> linarith

/-- Witness for C6: instantiating the monotonicity clause at the
frequencies 50 and 100. -/
theorem scope_time_division_spec_witness :
    (50 : ℚ) ≤ 100 ∧
    (set_scope_time_division 100).micros
      ≤ (set_scope_time_division 50).micros :=
  ⟨by norm_num, scope_time_division_spec.2.1 50 100 (by norm_num)⟩

/-- C3: at every sweep index `n > 2` the starting guess handed to
`_manual_seek` is `min(4095, round(intercept + slope * f_n))`, with slope
and intercept those of the line through the already-calibrated table entry
at index `n - 1` (`x1, y1`) and the entry at index `0` (`x2, y2`), periods
converted to frequencies (`specGuess`); the iteration then runs the seek
from exactly that guess. -/
theorem extrapolated_guess_formula (freq : ℕ → ℚ) (osc dch : ℕ)
    (ops : List (List ℤ)) (s : SweepState) (n period p₁ p₂ : ℕ)
    (dac_code y₁ y₂ : ℤ)
    (hs : s.err = none) (hn : 2 < n)
    (hg : s.table[n]? = some (period, dac_code))
    (hg1 : s.table[n - 1]? = some (p₁, y₁))
    (hg0 : s.table[0]? = some (p₂, y₂))
    (hx : freq p₂ - freq p₁ ≠ 0) :
    calibrateStep freq osc dch ops s n =
      { table := s.table.set n (period,
          (manual_seek dch (specGuess freq p₁ y₁ p₂ y₂ period)
            (ops.getD n [])).1)
        last := (manual_seek dch (specGuess freq p₁ y₁ p₂ y₂ period)
            (ops.getD n [])).1
        events := s.events ++
          [Event.setTimeDivision (set_scope_time_division (freq period)),
           Event.setPeriod osc period] ++
          (manual_seek dch (specGuess freq p₁ y₁ p₂ y₂ period)
            (ops.getD n [])).2
        err := none } := by
  have hlt : n < s.table.length := by
    rcases List.getElem?_eq_some.mp hg with ⟨h, _⟩
    exact h
  have hL : s.table.length - 1 ≠ 0 := by omega
  rw [calibrateStep_high freq osc dch ops s n period p₁ p₂ dac_code y₁ y₂
    hs hg hL hn hg1 hg0 hx]
  simp [finishStep]

/-- Witness for C3 at a concrete state: table `[(1,10),(2,20),(3,30),
(4,40)]`, index `3`, identity frequency map, no operator adjustment; the
line through `(3, 30)` and `(1, 10)` has slope 10 and intercept 0, so the
guess is `round(10 * 4) = 40` and the iteration seeks from 40. -/
theorem extrapolated_guess_formula_witness :
    calibrateStep (fun p => (p : ℚ)) 0 0 []
        ⟨[(1, 10), (2, 20), (3, 30), (4, 40)], 0, [], none⟩ 3
      = { table := [(1, 10), (2, 20), (3, 30), (4, 40)]
          last := 40
          events := [Event.setTimeDivision TimeDiv.t5ms, Event.setPeriod 0 4,
            Event.setDac 0 40]
          err := none } := by
  have h := extrapolated_guess_formula (fun p => (p : ℚ)) 0 0 []
    ⟨[(1, 10), (2, 20), (3, 30), (4, 40)], 0, [], none⟩ 3 4 3 1 40 30 10
    rfl (by norm_num) rfl rfl rfl (by norm_num)
  have hf : ⌊(40 : ℚ)⌋ = 40 := by decide
  have hr : pyRound 40 = 40 := by
    simp only [pyRound, hf]
    norm_num
  have hg : specGuess (fun p => (p : ℚ)) 3 30 1 10 4 = 40 := by
    simp only [specGuess]
    norm_num [hr, min_def]
  rw [hg] at h
  exact h.trans (by decide)

/-- C9: for `n > 2` the extrapolated guess completely replaces the clamped
value: the whole iteration result (table, events, error) is independent of
`last_dac_code`, so the monotonicity clamp can only influence the starting
guess at indices `n ≤ 2`. -/
theorem clamp_inactive_after_two (freq : ℕ → ℚ) (osc dch : ℕ)
    (ops : List (List ℤ)) (table : List (ℕ × ℤ)) (evs : List Event)
    (l₁ l₂ : ℤ) (n : ℕ) (hn : 2 < n) (hlt : n < table.length) :
    ((calibrateStep freq osc dch ops ⟨table, l₁, evs, none⟩ n).table
      = (calibrateStep freq osc dch ops ⟨table, l₂, evs, none⟩ n).table) ∧
    ((calibrateStep freq osc dch ops ⟨table, l₁, evs, none⟩ n).events
      = (calibrateStep freq osc dch ops ⟨table, l₂, evs, none⟩ n).events) ∧
    ((calibrateStep freq osc dch ops ⟨table, l₁, evs, none⟩ n).err
      = (calibrateStep freq osc dch ops ⟨table, l₂, evs, none⟩ n).err) := by
  obtain ⟨en, hg⟩ : ∃ e, table[n]? = some e :=
    ⟨_, List.getElem?_eq_getElem hlt⟩
  obtain ⟨period, dac_code⟩ := en
  obtain ⟨e1, hg1⟩ : ∃ e, table[n - 1]? = some e :=
    ⟨_, List.getElem?_eq_getElem (by omega : n - 1 < table.length)⟩
  obtain ⟨p₁, y₁⟩ := e1
  obtain ⟨e0, hg0⟩ : ∃ e, table[0]? = some e :=
    ⟨_, List.getElem?_eq_getElem (by omega : 0 < table.length)⟩
  obtain ⟨p₂, y₂⟩ := e0
  have hL : table.length - 1 ≠ 0 := by omega
  by_cases hx : freq p₂ - freq p₁ = 0
  · rw [calibrateStep_high_err freq osc dch ops ⟨table, l₁, evs, none⟩ n
      period p₁ p₂ dac_code y₁ y₂ rfl hg hL hn hg1 hg0 hx,
      calibrateStep_high_err freq osc dch ops ⟨table, l₂, evs, none⟩ n
      period p₁ p₂ dac_code y₁ y₂ rfl hg hL hn hg1 hg0 hx]
    exact ⟨rfl, rfl, rfl⟩
  · rw [calibrateStep_high freq osc dch ops ⟨table, l₁, evs, none⟩ n
      period p₁ p₂ dac_code y₁ y₂ rfl hg hL hn hg1 hg0 hx,
      calibrateStep_high freq osc dch ops ⟨table, l₂, evs, none⟩ n
      period p₁ p₂ dac_code y₁ y₂ rfl hg hL hn hg1 hg0 hx]
    exact ⟨rfl, rfl, rfl⟩

/-- Witness for C9: at the same state as the C3 witness but with
`last_dac_code` 1000 versus 0 — an extrapolated guess (40) strictly below
the previously accepted code (1000) is used unchanged, and the iteration's
result does not depend on the previously accepted code. -/
theorem clamp_inactive_after_two_witness :
    ((calibrateStep (fun p => (p : ℚ)) 0 0 []
        ⟨[(1, 10), (2, 20), (3, 30), (4, 40)], 1000, [], none⟩ 3).table
      = (calibrateStep (fun p => (p : ℚ)) 0 0 []
        ⟨[(1, 10), (2, 20), (3, 30), (4, 40)], 0, [], none⟩ 3).table) ∧
    ((calibrateStep (fun p => (p : ℚ)) 0 0 []
        ⟨[(1, 10), (2, 20), (3, 30), (4, 40)], 1000, [], none⟩ 3).events
      = (calibrateStep (fun p => (p : ℚ)) 0 0 []
        ⟨[(1, 10), (2, 20), (3, 30), (4, 40)], 0, [], none⟩ 3).events) ∧
    ((calibrateStep (fun p => (p : ℚ)) 0 0 []
        ⟨[(1, 10), (2, 20), (3, 30), (4, 40)], 1000, [], none⟩ 3).err
      = (calibrateStep (fun p => (p : ℚ)) 0 0 []
        ⟨[(1, 10), (2, 20), (3, 30), (4, 40)], 0, [], none⟩ 3).err) :=
  clamp_inactive_after_two (fun p => (p : ℚ)) 0 0 []
    [(1, 10), (2, 20), (3, 30), (4, 40)] [] 1000 0 3 (by norm_num)
    (by norm_num)

/-- Counterexample to C1 as stated: with seed `[(100,10),(200,20)]` and an
operator who accepts 100 at the first point and 50 at the second, the
recorded codes are `[100, 50]` — not monotonically non-decreasing.  The
clamp only raises the starting guess; the recorded codes are the raw
seek-returned (operator-accepted) values. -/
theorem sweep_monotone_counterexample :
    ¬ codesMonotone
      (calibrate_oscillator (fun _ => 0) 0 [[100], [50]]
        [(100, 10), (200, 20)]).table := by decide

/-- C1 (amended): the recorded DAC codes are exactly the operator-accepted
codes, so the completed table is monotonically non-decreasing whenever the
operator's accepted codes are themselves non-decreasing (at every point the
collaborator yields at least one value, and the final values are
non-decreasing in sweep order); the clamp alone does not constrain the
recorded values. -/
theorem sweep_monotone_of_accepted_monotone (freq : ℕ → ℚ) (osc : ℕ)
    (ops : List (List ℤ)) (seed : List (ℕ × ℤ))
    (hne : ∀ k, k < seed.length → ops.getD k [] ≠ [])
    (hmono : ∀ j, j < seed.length → ∀ i, i < j → acc ops i ≤ acc ops j)
    (herr : (calibrate_oscillator freq osc ops seed).err = none) :
    codesMonotone (calibrate_oscillator freq osc ops seed).table := by
  rw [calibrate_oscillator_eq_sweepStates] at herr ⊢
  have hchar := sweepStates_getElem? freq osc (if osc = 0 then 0 else 2) ops
    seed hne seed.length le_rfl herr
  have hlen := sweepStates_table_length freq osc (if osc = 0 then 0 else 2)
    ops seed seed.length
  rw [codesMonotone, List.pairwise_iff_get]
  intro i j hij
  have hi : (i : ℕ) < seed.length := by
    have := i.2
    simpa [hlen] using this
  have hj : (j : ℕ) < seed.length := by
    have := j.2
    simpa [hlen] using this
  obtain ⟨ei, hei⟩ : ∃ e, seed[(i : ℕ)]? = some e :=
    ⟨_, List.getElem?_eq_getElem hi⟩
  obtain ⟨ej, hej⟩ : ∃ e, seed[(j : ℕ)]? = some e :=
    ⟨_, List.getElem?_eq_getElem hj⟩
  have hTi := hchar (i : ℕ)
  have hTj := hchar (j : ℕ)
  rw [hei] at hTi
  rw [hej] at hTj
  simp only [hi, hj, if_pos, Option.map_some'] at hTi hTj
  have hgi :
      (List.map Prod.snd
        (sweepStates freq osc (if osc = 0 then 0 else 2) ops seed
          seed.length).table).get i = acc ops (i : ℕ) := by
    have h1 : (List.map Prod.snd
        (sweepStates freq osc (if osc = 0 then 0 else 2) ops seed
          seed.length).table)[(i : ℕ)]? = some (acc ops (i : ℕ)) := by
      rw [List.getElem?_map, hTi]
      rfl
    have h2 := List.get?_eq_get i.2
    rw [List.get?_eq_getElem?] at h2
    simp only [Fin.eta] at h2
    rw [h1] at h2
    exact (Option.some_injective _ h2).symm
  have hgj :
      (List.map Prod.snd
        (sweepStates freq osc (if osc = 0 then 0 else 2) ops seed
          seed.length).table).get j = acc ops (j : ℕ) := by
    have h1 : (List.map Prod.snd
        (sweepStates freq osc (if osc = 0 then 0 else 2) ops seed
          seed.length).table)[(j : ℕ)]? = some (acc ops (j : ℕ)) := by
      rw [List.getElem?_map, hTj]
      rfl
    have h2 := List.get?_eq_get j.2
    rw [List.get?_eq_getElem?] at h2
    simp only [Fin.eta] at h2
    rw [h1] at h2
    exact (Option.some_injective _ h2).symm
  rw [hgi, hgj]
  exact hmono (j : ℕ) hj (i : ℕ) hij

/-- Witness for the amended C1 at a concrete input: the operator accepts 5
then 7 — non-decreasing — and the completed table is monotone. -/
theorem sweep_monotone_of_accepted_monotone_witness :
    codesMonotone
      (calibrate_oscillator (fun _ => 0) 0 [[5], [7]]
        [(100, 10), (200, 20)]).table :=
  sweep_monotone_of_accepted_monotone (fun _ => 0) 0 [[5], [7]]
    [(100, 10), (200, 20)] (by decide) (by decide) (by decide)

/-- Counterexample to C2 as stated: with seed `[(100,10),(200,20)]` and a
Castor operator who records 5 at the first point, the Castor sweep mutates
the shared module-level table, and the subsequent Pollux sweep (operator
accepting every guess) yields `[(100,5),(200,20)]` — different from the
`[(100,10),(200,20)]` a Pollux sweep started from the untouched seed would
produce.  The Castor sweep's recorded codes do affect the Pollux sweep. -/
theorem shared_seed_counterexample :
    (calibrate_oscillator (fun _ => 0) 0 [[5], []]
        [(100, 10), (200, 20)]).table ≠ [(100, 10), (200, 20)] ∧
    (run (fun _ => 0) [(100, 10), (200, 20)] [[5], []] [[], []]
        ("SN") false).pollux
      ≠ (calibrate_oscillator (fun _ => 0) 1 [[], []]
          [(100, 10), (200, 20)]).table := by decide

/-- C2 (amended): the two sweeps share the module-level table: the Castor
sweep records its accepted codes into it in place, and the Pollux sweep
starts from that mutated table rather than from the untouched seed; each
sweep's returned snapshot is `run`'s corresponding table field. -/
theorem run_pollux_starts_from_castor_table (freq : ℕ → ℚ)
    (seed : List (ℕ × ℤ)) (castorOps polluxOps : List (List ℤ))
    (serial : String) (save : Bool)
    (hs : seed ≠ [])
    (hc : (calibrate_oscillator freq 0 castorOps seed).err = none)
    (hp : (calibrate_oscillator freq 1 polluxOps
      (calibrate_oscillator freq 0 castorOps seed).table).err = none) :
    (run freq seed castorOps polluxOps serial save).castor
      = (calibrate_oscillator freq 0 castorOps seed).table ∧
    (run freq seed castorOps polluxOps serial save).pollux
      = (calibrate_oscillator freq 1 polluxOps
          (calibrate_oscillator freq 0 castorOps seed).table).table := by
  obtain ⟨e, t, rfl⟩ := List.exists_cons_of_ne_nil hs
  obtain ⟨p₀, c₀⟩ := e
  cases save with
  | false =>
    simp only [run, List.head?, hc, hp]
    exact ⟨rfl, rfl⟩
  | true =>
    simp only [run, List.head?, hc, hp]
    cases hl : (upload_lut
        (calibrate_oscillator freq 0 castorOps ((p₀, c₀) :: t)).table
        (calibrate_oscillator freq 1 polluxOps
          (calibrate_oscillator freq 0 castorOps
            ((p₀, c₀) :: t)).table).table).2 with
    | none => simp only [hl]; exact ⟨rfl, rfl⟩
    | some err => simp only [hl]; exact ⟨rfl, rfl⟩

/-- Witness for the amended C2 at a concrete input: the Pollux table of the
run equals the result of sweeping Pollux from the Castor-mutated table. -/
theorem run_pollux_starts_from_castor_table_witness :
    (run (fun _ => 0) [(100, 10), (200, 20)] [[5], []] [[], []]
        ("SN") false).castor
      = (calibrate_oscillator (fun _ => 0) 0 [[5], []]
          [(100, 10), (200, 20)]).table ∧
    (run (fun _ => 0) [(100, 10), (200, 20)] [[5], []] [[], []]
        ("SN") false).pollux
      = (calibrate_oscillator (fun _ => 0) 1 [[], []]
          (calibrate_oscillator (fun _ => 0) 0 [[5], []]
            [(100, 10), (200, 20)]).table).table :=
  run_pollux_starts_from_castor_table (fun _ => 0) [(100, 10), (200, 20)]
    [[5], []] [[], []] ("SN") false (by decide) (by decide) (by decide)

/-- Counterexample to C7 as stated: the sweep driver's progress computation
is not guarded — on a one-entry calibration table the first iteration's
`n / (len(t) - 1)` raises ZeroDivisionError. -/
theorem progress_division_counterexample :
    (calibrate_oscillator (fun _ => 0) 0 [[]] [(100, 10)]).err
      = some PyErr.zeroDivision := by decide

/-- C7 (amended): the progress computation is not guarded against a
one-entry table (see the counterexample); a sweep whose table has at least
two entries, with distinct periods mapped to distinct frequencies, never
raises a division-by-zero error (the expected situation, since the seed
table has more than two entries). -/
theorem sweep_err_none_of_two_entries (freq : ℕ → ℚ) (osc : ℕ)
    (ops : List (List ℤ)) (seed : List (ℕ × ℤ))
    (h2 : 2 ≤ seed.length)
    (hnd : (seed.map Prod.fst).Nodup)
    (hinj : ∀ p ∈ seed.map Prod.fst, ∀ q ∈ seed.map Prod.fst,
      freq p = freq q → p = q) :
    (calibrate_oscillator freq osc ops seed).err = none := by
  rw [calibrate_oscillator_eq_sweepStates]
  suffices h : ∀ n, n ≤ seed.length →
      (sweepStates freq osc (if osc = 0 then 0 else 2) ops seed n).err
        = none from h seed.length le_rfl
  intro n
  induction n with
  | zero => intro _; rfl
  | succ m ih =>
    intro hm1
    have hmlt : m < seed.length := Nat.lt_of_succ_le hm1
    have herrm := ih (Nat.le_of_lt hmlt)
    rw [sweepStates_succ]
    have hlen := sweepStates_table_length freq osc (if osc = 0 then 0 else 2)
      ops seed m
    have hfst := sweepStates_map_fst freq osc (if osc = 0 then 0 else 2)
      ops seed m
    obtain ⟨em, hgm⟩ : ∃ e,
        (sweepStates freq osc (if osc = 0 then 0 else 2) ops seed
          m).table[m]? = some e :=
      ⟨_, List.getElem?_eq_getElem (by omega)⟩
    obtain ⟨pm, cm⟩ := em
    have hL : ((sweepStates freq osc (if osc = 0 then 0 else 2) ops seed
        m).table).length - 1 ≠ 0 := by omega
    by_cases hn2 : 2 < m
    · obtain ⟨e1, hg1⟩ : ∃ e,
          (sweepStates freq osc (if osc = 0 then 0 else 2) ops seed
            m).table[m - 1]? = some e :=
        ⟨_, List.getElem?_eq_getElem (by omega)⟩
      obtain ⟨p₁, y₁⟩ := e1
      obtain ⟨e0, hg0⟩ : ∃ e,
          (sweepStates freq osc (if osc = 0 then 0 else 2) ops seed
            m).table[0]? = some e :=
        ⟨_, List.getElem?_eq_getElem (by omega)⟩
      obtain ⟨p₂, y₂⟩ := e0
      have hk1 : (seed.map Prod.fst)[m - 1]? = some p₁ := by
        rw [← hfst, List.getElem?_map, hg1]
        rfl
      have hk0 : (seed.map Prod.fst)[0]? = some p₂ := by
        rw [← hfst, List.getElem?_map, hg0]
        rfl
      have hlen' : m - 1 < (seed.map Prod.fst).length := by
        simp only [List.length_map]
        omega
      have h0' : 0 < (seed.map Prod.fst).length := by
        simp only [List.length_map]
        omega
      have hp₁ : p₁ = (seed.map Prod.fst).get ⟨m - 1, hlen'⟩ := by
        have := List.getElem?_eq_getElem hlen'
        rw [hk1] at this
        simpa using (Option.some_injective _ this)
      have hp₂ : p₂ = (seed.map Prod.fst).get ⟨0, h0'⟩ := by
        have := List.getElem?_eq_getElem h0'
        rw [hk0] at this
        simpa using (Option.some_injective _ this)
      have hne12 : p₂ ≠ p₁ := by
        rw [hp₁, hp₂]
        intro hcontra
        have := (List.Nodup.get_inj_iff hnd).mp hcontra
        have : (0 : ℕ) = m - 1 := congrArg Fin.val this
        omega
      have hx : freq p₂ - freq p₁ ≠ 0 := by
        intro hcontra
        have heq : freq p₂ = freq p₁ := sub_eq_zero.mp hcontra
        have hm₂ : p₂ ∈ seed.map Prod.fst := by
          rw [hp₂]
          exact List.get_mem _ _ _
        have hm₁ : p₁ ∈ seed.map Prod.fst := by
          rw [hp₁]
          exact List.get_mem _ _ _
        exact hne12 (hinj p₂ hm₂ p₁ hm₁ heq)
      rw [calibrateStep_high freq osc (if osc = 0 then 0 else 2) ops _ m pm
        p₁ p₂ cm y₁ y₂ herrm hgm hL hn2 hg1 hg0 hx]
      exact finishStep_err osc (if osc = 0 then 0 else 2) ops _ m pm _ _
    · rw [calibrateStep_low freq osc (if osc = 0 then 0 else 2) ops _ m pm
        cm herrm hgm hL hn2]
      exact finishStep_err osc (if osc = 0 then 0 else 2) ops _ m pm _ _

/-- Witness for the amended C7: a two-entry table with distinct periods and
an injective frequency map sweeps to completion without error. -/
theorem sweep_err_none_of_two_entries_witness :
    (calibrate_oscillator (fun p => (p : ℚ)) 0 [[], []]
      [(100, 10), (200, 20)]).err = none :=
  sweep_err_none_of_two_entries (fun p => (p : ℚ)) 0 [[], []]
    [(100, 10), (200, 20)] (by decide) (by decide) (by decide)

section RunLemmas

theorem Event.sweep_not_save (e : Event) (h : e.isSweep = true) :
    e.isSave = false := by
  cases e <;> simp_all [Event.isSweep, Event.isSave]

theorem Event.sweep_not_lut (e : Event) (h : e.isSweep = true) :
    e.isLut = false := by
  cases e <;> simp_all [Event.isSweep, Event.isLut, Event.isLutEntry,
    Event.isLutCommit]

theorem upload_foldl_ok (pollux : List (ℕ × ℤ)) (N : ℕ) (hN : N - 1 ≠ 0)
    (l : List (ℕ × ℕ × ℤ)) (acc₀ : List Event)
    (hall : ∀ x ∈ l, (lookup pollux x.2.1).isSome = true) :
    l.foldl (uploadStep pollux N) (acc₀, none)
      = (acc₀ ++ l.map (fun x => Event.writeLutEntry x.1 x.2.1 x.2.2
          ((lookup pollux x.2.1).getD 0)), none) := by
  induction l generalizing acc₀ with
  | nil => simp
  | cons b t ih =>
    obtain ⟨v, hv⟩ := Option.isSome_iff_exists.mp (hall b (by simp))
    rw [List.foldl_cons]
    have hstep : uploadStep pollux N (acc₀, none) b
        = (acc₀ ++ [Event.writeLutEntry b.1 b.2.1 b.2.2 v], none) := by
      simp [uploadStep, hN, hv]
    rw [hstep, ih (acc₀ ++ [Event.writeLutEntry b.1 b.2.1 b.2.2 v])
      (fun x hx => hall x (List.mem_cons_of_mem b hx))]
    simp [hv]

theorem upload_lut_ok (castor pollux : List (ℕ × ℤ))
    (hN : castor.length - 1 ≠ 0)
    (hall : ∀ p ∈ castor.map Prod.fst, (lookup pollux p).isSome = true) :
    upload_lut castor pollux
      = (castor.enum.map (fun x => Event.writeLutEntry x.1 x.2.1 x.2.2
          ((lookup pollux x.2.1).getD 0)) ++ [Event.writeLut], none) := by
  have hall' : ∀ x ∈ castor.enum.map (fun x => (x.1, x.2.1, x.2.2)),
      (lookup pollux x.2.1).isSome = true := by
    intro x hx
    obtain ⟨y, hy, rfl⟩ := List.mem_map.mp hx
    exact hall y.2.1 (List.mem_map.mpr ⟨y.2, List.snd_mem_of_mem_enum hy,
      rfl⟩)
  unfold upload_lut
  rw [upload_foldl_ok pollux castor.length hN _ [] hall']
  simp [List.map_map, Function.comp]

theorem upload_events_lut (castor pollux : List (ℕ × ℤ))
    (hN : castor.length - 1 ≠ 0)
    (hall : ∀ p ∈ castor.map Prod.fst, (lookup pollux p).isSome = true) :
    ∀ e ∈ (upload_lut castor pollux).1, e.isLut = true := by
  rw [upload_lut_ok castor pollux hN hall]
  intro e he
  simp only [List.mem_append, List.mem_map, List.mem_singleton] at he
  rcases he with ⟨x, _, rfl⟩ | rfl <;> rfl

theorem lookup_isSome_of_mem_keys (t : List (ℕ × ℤ)) (p : ℕ)
    (h : p ∈ t.map Prod.fst) : (lookup t p).isSome = true := by
  obtain ⟨e, he, rfl⟩ := List.mem_map.mp h
  have hf : (List.find? (fun x => decide (x.1 = e.1)) t).isSome = true :=
    List.find?_isSome.mpr ⟨e, he, by simp⟩
  obtain ⟨y, hy⟩ := Option.isSome_iff_exists.mp hf
  simp [lookup, hy]

theorem lookup_getElem? (t : List (ℕ × ℤ)) (hnd : (t.map Prod.fst).Nodup)
    (n : ℕ) (p : ℕ) (v : ℤ) (h : t[n]? = some (p, v)) :
    lookup t p = some v := by
  induction t generalizing n with
  | nil => simp at h
  | cons b tl ih =>
    rw [List.map_cons, List.nodup_cons] at hnd
    cases n with
    | zero =>
      simp at h
      subst h
      simp [lookup]
    | succ m =>
      simp only [List.getElem?_cons_succ] at h
      have hmem : p ∈ tl.map Prod.fst :=
        List.mem_map.mpr ⟨(p, v), List.getElem?_mem h, rfl⟩
      have hbp : ¬ ((fun e => decide (e.1 = p)) b = true) := by
        simp only [decide_eq_true_eq]
        intro hcontra
        exact hnd.1 (hcontra ▸ hmem)
      simp only [lookup] at ih ⊢
      rw [@List.find?_cons_of_neg _ (fun e => decide (e.1 = p)) b tl hbp]
      exact ih hnd.2 m h

theorem calibrate_table_length (freq : ℕ → ℚ) (osc : ℕ)
    (ops : List (List ℤ)) (seed : List (ℕ × ℤ)) :
    ((calibrate_oscillator freq osc ops seed).table).length = seed.length := by
  rw [calibrate_oscillator_eq_sweepStates]
  exact sweepStates_table_length freq osc _ ops seed seed.length

theorem calibrate_map_fst (freq : ℕ → ℚ) (osc : ℕ)
    (ops : List (List ℤ)) (seed : List (ℕ × ℤ)) :
    ((calibrate_oscillator freq osc ops seed).table).map Prod.fst
      = seed.map Prod.fst := by
  rw [calibrate_oscillator_eq_sweepStates]
  exact sweepStates_map_fst freq osc _ ops seed seed.length

theorem calibrate_events_sweep (freq : ℕ → ℚ) (osc : ℕ)
    (ops : List (List ℤ)) (seed : List (ℕ × ℤ)) :
    ∀ e ∈ (calibrate_oscillator freq osc ops seed).events,
      e.isSweep = true := by
  rw [calibrate_oscillator_eq_sweepStates]
  exact sweepStates_events_sweep freq osc _ ops seed seed.length

theorem sweep_len1_err (freq : ℕ → ℚ) (osc : ℕ) (ops : List (List ℤ))
    (e : ℕ × ℤ) :
    (calibrate_oscillator freq osc ops [e]).err
      = some PyErr.zeroDivision := by
  obtain ⟨p, c⟩ := e
  rw [calibrate_oscillator_eq_sweepStates]
  show (sweepStates freq osc (if osc = 0 then 0 else 2) ops [(p, c)] 1).err
    = some PyErr.zeroDivision
  have h0 : sweepStates freq osc (if osc = 0 then 0 else 2) ops [(p, c)] 0
      = ⟨[(p, c)], 0, [], none⟩ := rfl
  rw [sweepStates_succ, h0,
    calibrateStep_len1 freq osc (if osc = 0 then 0 else 2) ops
      ⟨[(p, c)], 0, [], none⟩ 0 p c rfl rfl rfl]

theorem seed_length_ne_one (freq : ℕ → ℚ) (osc : ℕ) (ops : List (List ℤ))
    (seed : List (ℕ × ℤ))
    (hc : (calibrate_oscillator freq osc ops seed).err = none) :
    seed.length ≠ 1 := by
  intro h1
  obtain ⟨e, rfl⟩ := List.length_eq_one.mp h1
  rw [sweep_len1_err freq osc ops e] at hc
  simp at hc

theorem run_upload_hyp (freq : ℕ → ℚ) (seed : List (ℕ × ℤ))
    (castorOps polluxOps : List (List ℤ))
    (hs : seed ≠ [])
    (hc : (calibrate_oscillator freq 0 castorOps seed).err = none) :
    ((calibrate_oscillator freq 0 castorOps seed).table).length - 1 ≠ 0 ∧
    ∀ p ∈ ((calibrate_oscillator freq 0 castorOps seed).table).map Prod.fst,
      (lookup (calibrate_oscillator freq 1 polluxOps
        (calibrate_oscillator freq 0 castorOps seed).table).table
        p).isSome = true := by
  constructor
  · rw [calibrate_table_length]
    have h1 := seed_length_ne_one freq 0 castorOps seed hc
    have h0 : seed.length ≠ 0 := by
      intro h
      exact hs (List.length_eq_zero.mp h)
    omega
  · intro p hmem
    apply lookup_isSome_of_mem_keys
    rw [calibrate_map_fst freq 1 polluxOps]
    exact hmem

theorem run_upload_ok (freq : ℕ → ℚ) (seed : List (ℕ × ℤ))
    (castorOps polluxOps : List (List ℤ))
    (hs : seed ≠ [])
    (hc : (calibrate_oscillator freq 0 castorOps seed).err = none) :
    (upload_lut (calibrate_oscillator freq 0 castorOps seed).table
      (calibrate_oscillator freq 1 polluxOps
        (calibrate_oscillator freq 0 castorOps seed).table).table).2
      = none := by
  obtain ⟨hN, hall⟩ := run_upload_hyp freq seed castorOps polluxOps hs hc
  rw [upload_lut_ok _ _ hN hall]

theorem run_upload_events_lut (freq : ℕ → ℚ) (seed : List (ℕ × ℤ))
    (castorOps polluxOps : List (List ℤ))
    (hs : seed ≠ [])
    (hc : (calibrate_oscillator freq 0 castorOps seed).err = none) :
    ∀ e ∈ (upload_lut (calibrate_oscillator freq 0 castorOps seed).table
      (calibrate_oscillator freq 1 polluxOps
        (calibrate_oscillator freq 0 castorOps seed).table).table).1,
      e.isLut = true := by
  obtain ⟨hN, hall⟩ := run_upload_hyp freq seed castorOps polluxOps hs hc
  exact upload_events_lut _ _ hN hall

/-- Shared success-path decomposition of `run`: when the seed is nonempty,
both sweeps succeed and (for the upload branch) the LUT upload succeeds,
the run's trace is sweep-type events, then the two local-save events, then
(only when `save` is set) the LUT events, then the close. -/
theorem run_decomp (freq : ℕ → ℚ) (seed : List (ℕ × ℤ))
    (castorOps polluxOps : List (List ℤ)) (serial : String)
    (hs : seed ≠ [])
    (hc : (calibrate_oscillator freq 0 castorOps seed).err = none)
    (hp : (calibrate_oscillator freq 1 polluxOps
      (calibrate_oscillator freq 0 castorOps seed).table).err = none)
    (hup : (upload_lut (calibrate_oscillator freq 0 castorOps seed).table
      (calibrate_oscillator freq 1 polluxOps
        (calibrate_oscillator freq 0 castorOps seed).table).table).2
      = none) :
    ∃ pre : List Event, (∀ e ∈ pre, e.isSweep = true) ∧
      run freq seed castorOps polluxOps serial true =
        ⟨(calibrate_oscillator freq 0 castorOps seed).table,
         (calibrate_oscillator freq 1 polluxOps
           (calibrate_oscillator freq 0 castorOps seed).table).table,
         pre ++ [Event.mkdirCalibrations,
           Event.writeFile ("calibrations/" ++ serial ++ ".ramp.json")
             (calibrate_oscillator freq 0 castorOps seed).table
             (calibrate_oscillator freq 1 polluxOps
               (calibrate_oscillator freq 0 castorOps seed).table).table] ++
           (upload_lut (calibrate_oscillator freq 0 castorOps seed).table
             (calibrate_oscillator freq 1 polluxOps
               (calibrate_oscillator freq 0 castorOps
                 seed).table).table).1 ++ [Event.close],
         none⟩ ∧
      run freq seed castorOps polluxOps serial false =
        ⟨(calibrate_oscillator freq 0 castorOps seed).table,
         (calibrate_oscillator freq 1 polluxOps
           (calibrate_oscillator freq 0 castorOps seed).table).table,
         pre ++ [Event.mkdirCalibrations,
           Event.writeFile ("calibrations/" ++ serial ++ ".ramp.json")
             (calibrate_oscillator freq 0 castorOps seed).table
             (calibrate_oscillator freq 1 polluxOps
               (calibrate_oscillator freq 0 castorOps
                 seed).table).table] ++ [Event.close],
         none⟩ := by
  obtain ⟨e, t, rfl⟩ := List.exists_cons_of_ne_nil hs
  obtain ⟨p₀, c₀⟩ := e
  refine ⟨[Event.setPeriod 0 p₀, Event.setDac 0 c₀, Event.setPeriod 1 p₀,
      Event.setDac 2 c₀]
      ++ (calibrate_oscillator freq 0 castorOps ((p₀, c₀) :: t)).events
      ++ (calibrate_oscillator freq 1 polluxOps
          (calibrate_oscillator freq 0 castorOps
            ((p₀, c₀) :: t)).table).events, ?_, ?_, ?_⟩
  · intro e he
    rcases List.mem_append.mp he with he | he
    · rcases List.mem_append.mp he with he | he
      · simp only [List.mem_cons, List.mem_singleton] at he
        rcases he with rfl | rfl | rfl | he
        · rfl
        · rfl
        · rfl
        · simp at he
          subst he
          rfl
      · exact calibrate_events_sweep freq 0 castorOps ((p₀, c₀) :: t) e he
    · exact calibrate_events_sweep freq 1 polluxOps _ e he
  · simp only [run, List.head?, hc, hp, hup, if_true]
  · simp only [run, List.head?, hc, hp, Bool.false_eq_true, if_false]

theorem Event.lut_not_save (e : Event) (h : e.isLut = true) :
    e.isSave = false := by
  cases e <;> simp_all [Event.isLut, Event.isLutEntry, Event.isLutCommit,
    Event.isSave]

/-- When the two tables have equal length, identical key sequences and
duplicate-free keys, the key-lookup form of the LUT-entry event list is the
positional (zip) form: entry `n` carries the `n`-th period and both tables'
`n`-th codes. -/
theorem upload_events_eq_zip (castor pollux : List (ℕ × ℤ))
    (hlen : castor.length = pollux.length)
    (hkeys : castor.map Prod.fst = pollux.map Prod.fst)
    (hnd : (pollux.map Prod.fst).Nodup) :
    castor.enum.map (fun x => Event.writeLutEntry x.1 x.2.1 x.2.2
        ((lookup pollux x.2.1).getD 0))
      = (castor.zip pollux).enum.map
          (fun x => Event.writeLutEntry x.1 x.2.1.1 x.2.1.2 x.2.2.2) := by
  apply List.ext_getElem?
  intro n
  rw [List.getElem?_map, List.getElem?_enum, List.getElem?_map,
    List.getElem?_enum]
  cases hcn : castor[n]? with
  | none =>
    have hn : castor.length ≤ n := by
      by_contra hlt
      rw [List.getElem?_eq_getElem (Nat.lt_of_not_le hlt)] at hcn
      exact Option.noConfusion hcn
    have hz : (castor.zip pollux)[n]? = none := by
      apply List.getElem?_eq_none
      rw [List.length_zip]
      omega
    rw [hz]
    rfl
  | some ec =>
    have hn : n < castor.length := by
      by_contra hge
      rw [List.getElem?_eq_none (Nat.le_of_not_lt hge)] at hcn
      exact Option.noConfusion hcn
    obtain ⟨ep, hpn⟩ : ∃ e, pollux[n]? = some e :=
      ⟨_, List.getElem?_eq_getElem (by omega : n < pollux.length)⟩
    obtain ⟨pc, cc⟩ := ec
    obtain ⟨pp, pv⟩ := ep
    have hkey : pc = pp := by
      have h1 : (castor.map Prod.fst)[n]? = some pc := by
        rw [List.getElem?_map, hcn]
        rfl
      have h2 : (pollux.map Prod.fst)[n]? = some pp := by
        rw [List.getElem?_map, hpn]
        rfl
      rw [hkeys, h2] at h1
      exact (Option.some_injective _ h1).symm
    subst hkey
    have hlook : lookup pollux pc = some pv :=
      lookup_getElem? pollux hnd n pc pv hpn
    have hz : (castor.zip pollux)[n]? = some ((pc, cc), (pc, pv)) :=
      List.getElem?_zip_eq_some.mpr ⟨hcn, hpn⟩
    rw [hz]
    simp [hlook]

/-- C5 evaluated at the failing input: on diverging period sequences the
upload block performs no divergence check — it writes the LUT entry for
index 0 (the shared period 10) and only then aborts with `KeyError(20)`
when the Pollux table lacks the Castor table's second period; an entry has
already been written to the device before the abort. -/
theorem lut_divergence_behavior :
    upload_lut [(10, 1), (20, 2)] [(10, 1)]
      = ([Event.writeLutEntry 0 10 1 1], some (PyErr.keyError 20)) := by
  decide

/-- Counterexample to C4 as stated: for a one-entry table (`N = 1`) the run
with upload requested performs zero `writeLutEntry` calls and zero
`writeLut` commits (the sweep's — and the upload loop's — progress division
raises ZeroDivisionError first), not the one-entry-plus-commit the claim
promises for every `N`. -/
theorem lut_upload_counterexample :
    (run (fun _ => 0) [(100, 10)] [[]] [[]] ("SN") true).castor.length
      = 1 ∧
    ¬ (((run (fun _ => 0) [(100, 10)] [[]] [[]] ("SN")
          true).events.filter Event.isLutEntry).length = 1 ∧
       ((run (fun _ => 0) [(100, 10)] [[]] [[]] ("SN")
          true).events.filter Event.isLutCommit).length = 1) := by
  decide

/-- C4 (amended): for seeds with at least two entries (duplicate-free
periods, as a Python dict guarantees) and both sweeps completing, a run
with upload enabled emits exactly `N` `writeLutEntry` events — one per
index `0..N-1` in ascending order, each carrying that index's period and
both oscillators' codes — followed by exactly one `writeLut` commit, while
a dry run emits no LUT event at all.  (For `N = 1` the run aborts with a
division-by-zero error before any LUT write; see the counterexample.) -/
theorem run_lut_upload (freq : ℕ → ℚ) (seed : List (ℕ × ℤ))
    (castorOps polluxOps : List (List ℤ)) (serial : String)
    (hs : seed ≠ [])
    (hnd : (seed.map Prod.fst).Nodup)
    (hc : (calibrate_oscillator freq 0 castorOps seed).err = none)
    (hp : (calibrate_oscillator freq 1 polluxOps
      (calibrate_oscillator freq 0 castorOps seed).table).err = none) :
    ((run freq seed castorOps polluxOps serial true).events.filter
        Event.isLut
      = ((run freq seed castorOps polluxOps serial true).castor.zip
          (run freq seed castorOps polluxOps serial true).pollux).enum.map
          (fun x => Event.writeLutEntry x.1 x.2.1.1 x.2.1.2 x.2.2.2)
        ++ [Event.writeLut]) ∧
    (run freq seed castorOps polluxOps serial true).castor.length
      = seed.length ∧
    ((run freq seed castorOps polluxOps serial false).events.filter
        Event.isLut = []) := by
  have hup := run_upload_ok freq seed castorOps polluxOps hs hc
  have hlut := run_upload_events_lut freq seed castorOps polluxOps hs hc
  obtain ⟨hN, hall⟩ := run_upload_hyp freq seed castorOps polluxOps hs hc
  obtain ⟨pre, hpre, hrunT, hrunF⟩ := run_decomp freq seed castorOps
    polluxOps serial hs hc hp hup
  rw [hrunT, hrunF]
  have hpreLut : pre.filter Event.isLut = [] :=
    List.filter_eq_nil.mpr (fun e he => by
      rw [Event.sweep_not_lut e (hpre e he)]
      exact Bool.false_ne_true)
  have hlutKeep : ((upload_lut
      (calibrate_oscillator freq 0 castorOps seed).table
      (calibrate_oscillator freq 1 polluxOps
        (calibrate_oscillator freq 0 castorOps
          seed).table).table).1).filter Event.isLut
      = (upload_lut (calibrate_oscillator freq 0 castorOps seed).table
          (calibrate_oscillator freq 1 polluxOps
            (calibrate_oscillator freq 0 castorOps
              seed).table).table).1 :=
    List.filter_eq_self.mpr hlut
  refine ⟨?_, ?_, ?_⟩
  · dsimp only
    simp only [List.filter_append]
    rw [hpreLut, hlutKeep]
    rw [upload_lut_ok _ _ hN hall]
    simp only [List.nil_append, List.cons_append]
    rw [upload_events_eq_zip
      (calibrate_oscillator freq 0 castorOps seed).table
      (calibrate_oscillator freq 1 polluxOps
        (calibrate_oscillator freq 0 castorOps seed).table).table
      (by rw [calibrate_table_length freq 1 polluxOps])
      (by rw [calibrate_map_fst freq 1 polluxOps])
      (by rw [calibrate_map_fst freq 1 polluxOps,
        calibrate_map_fst freq 0 castorOps seed]; exact hnd)]
    simp [Event.isLut, Event.isLutEntry, Event.isLutCommit]
  · dsimp only
    exact calibrate_table_length freq 0 castorOps seed
  · dsimp only
    simp only [List.filter_append]
    rw [hpreLut]
    simp [Event.isLut, Event.isLutEntry, Event.isLutCommit]

/-- Witness for the amended C4 at a concrete input: a two-entry seed, both
operators accepting every guess; the run with upload writes LUT entries 0
and 1 (periods 100 and 200, both codes) followed by the commit, and the dry
run writes none. -/
theorem run_lut_upload_witness :
    ((run (fun _ => 0) [(100, 10), (200, 20)] [[], []] [[], []] ("SN")
        true).events.filter Event.isLut
      = ((run (fun _ => 0) [(100, 10), (200, 20)] [[], []] [[], []] ("SN")
          true).castor.zip
          (run (fun _ => 0) [(100, 10), (200, 20)] [[], []] [[], []] ("SN")
            true).pollux).enum.map
          (fun x => Event.writeLutEntry x.1 x.2.1.1 x.2.1.2 x.2.2.2)
        ++ [Event.writeLut]) ∧
    (run (fun _ => 0) [(100, 10), (200, 20)] [[], []] [[], []] ("SN")
      true).castor.length = 2 ∧
    ((run (fun _ => 0) [(100, 10), (200, 20)] [[], []] [[], []] ("SN")
        false).events.filter Event.isLut = []) :=
  run_lut_upload (fun _ => 0) [(100, 10), (200, 20)] [[], []] [[], []]
    ("SN") (by decide) (by decide) (by decide) (by decide)

/-- C8: once both sweeps complete, the run performs the local save —
creating `calibrations/` and writing `calibrations/<serial>.ramp.json` with
the Castor and Pollux tables — identically with or without dry-run, and the
dry run differs from the upload run exactly by the LUT events: filtering
the LUT events out of the upload run's trace yields the dry run's trace. -/
theorem run_always_saves_locally (freq : ℕ → ℚ) (seed : List (ℕ × ℤ))
    (castorOps polluxOps : List (List ℤ)) (serial : String)
    (hs : seed ≠ [])
    (hc : (calibrate_oscillator freq 0 castorOps seed).err = none)
    (hp : (calibrate_oscillator freq 1 polluxOps
      (calibrate_oscillator freq 0 castorOps seed).table).err = none) :
    ((run freq seed castorOps polluxOps serial false).events.filter
        Event.isSave
      = [Event.mkdirCalibrations,
         Event.writeFile ("calibrations/" ++ serial ++ ".ramp.json")
           (run freq seed castorOps polluxOps serial false).castor
           (run freq seed castorOps polluxOps serial false).pollux]) ∧
    ((run freq seed castorOps polluxOps serial true).events.filter
        Event.isSave
      = (run freq seed castorOps polluxOps serial false).events.filter
          Event.isSave) ∧
    ((run freq seed castorOps polluxOps serial true).events.filter
        (fun e => ! e.isLut)
      = (run freq seed castorOps polluxOps serial false).events.filter
          (fun e => ! e.isLut)) := by
  have hup := run_upload_ok freq seed castorOps polluxOps hs hc
  have hlut := run_upload_events_lut freq seed castorOps polluxOps hs hc
  obtain ⟨pre, hpre, hrunT, hrunF⟩ := run_decomp freq seed castorOps
    polluxOps serial hs hc hp hup
  rw [hrunT, hrunF]
  have hpreSave : pre.filter Event.isSave = [] :=
    List.filter_eq_nil.mpr (fun e he => by
      rw [Event.sweep_not_save e (hpre e he)]
      exact Bool.false_ne_true)
  have hpreKeep : pre.filter (fun e => ! e.isLut) = pre :=
    List.filter_eq_self.mpr (fun e he => by
      rw [Event.sweep_not_lut e (hpre e he)]
      rfl)
  have hlutSave : ((upload_lut
      (calibrate_oscillator freq 0 castorOps seed).table
      (calibrate_oscillator freq 1 polluxOps
        (calibrate_oscillator freq 0 castorOps
          seed).table).table).1).filter Event.isSave = [] :=
    List.filter_eq_nil.mpr (fun e he => by
      rw [Event.lut_not_save e (hlut e he)]
      exact Bool.false_ne_true)
  have hlutDrop : ((upload_lut
      (calibrate_oscillator freq 0 castorOps seed).table
      (calibrate_oscillator freq 1 polluxOps
        (calibrate_oscillator freq 0 castorOps
          seed).table).table).1).filter (fun e => ! e.isLut) = [] :=
    List.filter_eq_nil.mpr (fun e he => by
      rw [hlut e he]
      exact Bool.false_ne_true)
  refine ⟨?_, ?_, ?_⟩
  · dsimp only
    simp only [List.filter_append]
    rw [hpreSave]
    simp [Event.isSave]
  · dsimp only
    simp only [List.filter_append]
    rw [hpreSave, hlutSave]
    simp [Event.isSave]
  · dsimp only
    simp only [List.filter_append]
    rw [hpreKeep, hlutDrop]
    simp [Event.isLut, Event.isLutEntry, Event.isLutCommit]

/-- Witness for C8 at a concrete input: the dry run writes
`calibrations/SN.ramp.json` with both tables, the upload run performs the
identical save, and removing LUT events from the upload run's trace yields
the dry run's trace. -/
theorem run_always_saves_locally_witness :
    ((run (fun _ => 0) [(100, 10), (200, 20)] [[], []] [[], []] ("SN")
        false).events.filter Event.isSave
      = [Event.mkdirCalibrations,
         Event.writeFile ("calibrations/" ++ "SN" ++ ".ramp.json")
           (run (fun _ => 0) [(100, 10), (200, 20)] [[], []] [[], []]
             ("SN") false).castor
           (run (fun _ => 0) [(100, 10), (200, 20)] [[], []] [[], []]
             ("SN") false).pollux]) ∧
    ((run (fun _ => 0) [(100, 10), (200, 20)] [[], []] [[], []] ("SN")
        true).events.filter Event.isSave
      = (run (fun _ => 0) [(100, 10), (200, 20)] [[], []] [[], []] ("SN")
          false).events.filter Event.isSave) ∧
    ((run (fun _ => 0) [(100, 10), (200, 20)] [[], []] [[], []] ("SN")
        true).events.filter (fun e => ! e.isLut)
      = (run (fun _ => 0) [(100, 10), (200, 20)] [[], []] [[], []] ("SN")
          false).events.filter (fun e => ! e.isLut)) :=
  run_always_saves_locally (fun _ => 0) [(100, 10), (200, 20)] [[], []]
    [[], []] ("SN") (by decide) (by decide) (by decide)

end RunLemmas

end RampCalibration
